import Mathlib

/-!
Shallow embedding of `src/main.rs` (joshka/ratatui-mandelbrot-example).

Modelling conventions:
* Rust `f64` values are modelled as exact rationals (`ℚ`).
* Rust `u16` values are modelled as `Nat` together with explicit `% 65536`
  wherever the source performs `u16` arithmetic that can overflow
  (release-mode wrapping semantics; a debug build would panic at the same
  inputs, so both builds diverge from "plain" arithmetic there).
* Fallible operations (Rust `Vec` indexing, which panics out of bounds)
  are modelled in the `Option` monad: `none` corresponds to a panic.
-/

/-- One `u16` wrapping multiplication, `a * b` on `u16` operands. -/
def u16mul (a b : Nat) : Nat := a * b % 65536

/-- One `u16` wrapping addition, `a + b` on `u16` operands. -/
def u16add (a b : Nat) : Nat := (a + b) % 65536

/-- Checked `Vec` read `l[i]`: `none` models the out-of-bounds panic. -/
def getChecked {α : Type} (l : List α) (i : Nat) : Option α := l[i]?

/-- Checked `Vec` write `l[i] = a`: `none` models the out-of-bounds panic. -/
def setChecked {α : Type} (l : List α) (i : Nat) (a : α) : Option (List α) :=
  if i < l.length then some (l.set i a) else none

/-- The `Mandelbrot` struct of `main.rs` (lines 65-71): the viewport state.
`max_iterations` is a `u16` in the source and is kept `< 65536` by the
operations below; the bounds are `f64`, modelled as `ℚ`. -/
structure Mandelbrot where
  max_iterations : Nat
  x_min : ℚ
  x_max : ℚ
  y_min : ℚ
  y_max : ℚ
deriving DecidableEq

/-- `Mandelbrot::new` (lines 74-82). -/
def Mandelbrot.new (max_iterations : Nat) (x_min x_max y_min y_max : ℚ) : Mandelbrot :=
  { max_iterations := max_iterations, x_min := x_min, x_max := x_max,
    y_min := y_min, y_max := y_max }

/-- `Mandelbrot::increase_max_iterations` (lines 84-86): `self.max_iterations += 100`
on a `u16`, i.e. addition modulo `2^16` in release mode (panic in debug mode
once the sum exceeds `65535`). -/
def Mandelbrot.increase_max_iterations (m : Mandelbrot) : Mandelbrot :=
  { m with max_iterations := (m.max_iterations + 100) % 65536 }

/-- `Mandelbrot::decrease_max_iterations` (lines 88-90):
`self.max_iterations = self.max_iterations.checked_sub(100).unwrap_or(100)`.
`checked_sub 100` is `some (n - 100)` exactly when `100 ≤ n`, else `none`. -/
def Mandelbrot.decrease_max_iterations (m : Mandelbrot) : Mandelbrot :=
  { m with max_iterations :=
      if 100 ≤ m.max_iterations then m.max_iterations - 100 else 100 }

/-- `Mandelbrot::pan_left` (lines 92-96). -/
def Mandelbrot.pan_left (m : Mandelbrot) : Mandelbrot :=
  { m with x_min := m.x_min - (m.x_max - m.x_min) * (1/10),
           x_max := m.x_max - (m.x_max - m.x_min) * (1/10) }

/-- `Mandelbrot::pan_right` (lines 98-102). -/
def Mandelbrot.pan_right (m : Mandelbrot) : Mandelbrot :=
  { m with x_min := m.x_min + (m.x_max - m.x_min) * (1/10),
           x_max := m.x_max + (m.x_max - m.x_min) * (1/10) }

/-- `Mandelbrot::pan_up` (lines 104-108). -/
def Mandelbrot.pan_up (m : Mandelbrot) : Mandelbrot :=
  { m with y_min := m.y_min - (m.y_max - m.y_min) * (1/10),
           y_max := m.y_max - (m.y_max - m.y_min) * (1/10) }

/-- `Mandelbrot::pan_down` (lines 110-114). -/
def Mandelbrot.pan_down (m : Mandelbrot) : Mandelbrot :=
  { m with y_min := m.y_min + (m.y_max - m.y_min) * (1/10),
           y_max := m.y_max + (m.y_max - m.y_min) * (1/10) }

/-- `Mandelbrot::zoom_in` (lines 116-125). -/
def Mandelbrot.zoom_in (m : Mandelbrot) : Mandelbrot :=
  { m with
    x_min := (m.x_min + m.x_max) / 2 - (m.x_max - m.x_min) * (9/10) / 2,
    x_max := (m.x_min + m.x_max) / 2 + (m.x_max - m.x_min) * (9/10) / 2,
    y_min := (m.y_min + m.y_max) / 2 - (m.y_max - m.y_min) * (9/10) / 2,
    y_max := (m.y_min + m.y_max) / 2 + (m.y_max - m.y_min) * (9/10) / 2 }

/-- `Mandelbrot::zoom_out` (lines 127-136). -/
def Mandelbrot.zoom_out (m : Mandelbrot) : Mandelbrot :=
  { m with
    x_min := (m.x_min + m.x_max) / 2 - (m.x_max - m.x_min) * (11/10) / 2,
    x_max := (m.x_min + m.x_max) / 2 + (m.x_max - m.x_min) * (11/10) / 2,
    y_min := (m.y_min + m.y_max) / 2 - (m.y_max - m.y_min) * (11/10) / 2,
    y_max := (m.y_min + m.y_max) / 2 + (m.y_max - m.y_min) * (11/10) / 2 }

/-- The initial state built by `App::new` (line 25):
`Mandelbrot::new(10000, -2.0, 1.0, -1.0, 1.0)`. -/
def initialMandelbrot : Mandelbrot := Mandelbrot.new 10000 (-2) 1 (-1) 1

/-- `Complex::norm_sqr` for the `ℚ × ℚ` encoding of `num_complex::Complex<f64>`. -/
def normSqr (z : ℚ × ℚ) : ℚ := z.1 * z.1 + z.2 * z.2

/-- One escape-time step `z * z + c` (`num_complex` multiplication:
`(a*c - b*d, a*d + b*c)`). -/
def zstep (c z : ℚ × ℚ) : ℚ × ℚ :=
  (z.1 * z.1 - z.2 * z.2 + c.1, z.1 * z.2 + z.2 * z.1 + c.2)

/-- The orbit of `0` under `z ← z² + c`: `orbit c n` is the value of `z`
after `n` loop iterations of lines 153-156. -/
def orbit (c : ℚ × ℚ) : Nat → ℚ × ℚ
  | 0 => (0, 0)
  | k + 1 => zstep c (orbit c k)

/-- The `while z.norm_sqr() <= 4.0 && n < self.max_iterations` loop of
lines 150-156, as a fuel recursion.  The fuel is an upper bound on the
remaining iterations (`max_iterations - n`), so with fuel `max_iterations`
the recursion is exactly the Rust loop. -/
def escapeGo (maxIter : Nat) (c : ℚ × ℚ) : Nat → ℚ × ℚ → Nat → Nat
  | 0, _, n => n
  | fuel + 1, z, n =>
    if normSqr z ≤ 4 ∧ n < maxIter then escapeGo maxIter c fuel (zstep c z) (n + 1)
    else n

/-- The escape iteration count stored in `pixels` for a sample point `c`
(lines 150-158): start from `z = 0`, `n = 0`. -/
def escapeCount (maxIter : Nat) (c : ℚ × ℚ) : Nat :=
  escapeGo maxIter c maxIter (0, 0) 0

/-- The sample point for grid indices `(x, y)` (lines 146-149):
`c = (x_min + x * x_step) + i (y_min + y * y_step)`. -/
def samplePoint (m : Mandelbrot) (xStep yStep : ℚ) (x y : Nat) : ℚ × ℚ :=
  (m.x_min + (x : ℚ) * xStep, m.y_min + (y : ℚ) * yStep)

/-- Lines 143-160: allocate `vec![0; (width * height * 2) as usize]` and fill
it with escape counts, indexing by `(y * width + x) as usize`.  All the size
and index arithmetic is `u16` arithmetic in the source, hence the wrapping
operations; an out-of-range write is a panic, hence `Option`. -/
def fillPixels (m : Mandelbrot) (w h : Nat) (xStep yStep : ℚ) : Option (List Nat) :=
  (List.range (u16mul h 2)).foldlM
    (fun pixels y =>
      (List.range w).foldlM
        (fun pixels x =>
          setChecked pixels (u16add (u16mul y w) x)
            (escapeCount m.max_iterations (samplePoint m xStep yStep x y)))
        pixels)
    (List.replicate (u16mul (u16mul w h) 2) 0)

/-- Lines 164-169: `vec![0; max_iterations as usize + 1]`, then for every
sample whose count is strictly below `max_iterations`, increment that
count's bucket (`histogram[count as usize] += 1`). -/
def buildHistogram (maxIter : Nat) (pixels : List Nat) : Option (List Nat) :=
  pixels.foldlM
    (fun histogram count =>
      if count < maxIter then
        match getChecked histogram count with
        | some v => setChecked histogram count (v + 1)
        | none => none
      else pure histogram)
    (List.replicate (maxIter + 1) 0)

/-- Lines 171-174: `total += histogram[i]` over `0..histogram.len()`. -/
def sumTotal (histogram : List Nat) : Option Nat :=
  (List.range histogram.length).foldlM
    (fun total i => (getChecked histogram i).map (fun v => total + v)) 0

/-- Lines 177-184, for one sample: skip (brightness `0`) when
`count == max_iterations`, else accumulate
`histogram[i] as f64 / total as f64` over `i ∈ 0..count`. -/
def sampleBrightness (maxIter total : Nat) (histogram : List Nat) (count : Nat) : Option ℚ :=
  if count = maxIter then pure 0
  else
    (List.range count).foldlM
      (fun b i => (getChecked histogram i).map (fun v => b + (v : ℚ) / (total : ℚ))) 0

/-- An RGB color (`ratatui::style::Color::Rgb`). -/
structure Rgb where
  r : Nat
  g : Nat
  b : Nat
deriving DecidableEq

/-- One display cell as the widget writes it: foreground and background
color plus the half-block glyph. -/
structure Cell where
  fg : Rgb
  bg : Rgb
  symbol : String
deriving DecidableEq

/-- The glyph set on every cell (line 195). -/
def halfBlock : String := "▀"

/-- Rust's saturating `f64 → u8` conversion `q as u8` applied after
`.floor()`: clamp `⌊q⌋` into `[0, 255]`. -/
def f64ToU8 (q : ℚ) : Nat := (max 0 (min 255 ⌊q⌋)).toNat

/-- The color `Color::Rgb(0, 0, (b * 255.0).floor() as u8)` of lines 192-193. -/
def brightnessColor (b : ℚ) : Rgb := Rgb.mk 0 0 (f64ToU8 (b * 255))

/-- Lines 186-197: for each display cell `(x, y)` read the "top" sample
brightness at `y * 2 * width + x` and the "bottom" one at
`(y * 2 + 1) * width + x` (u16 index arithmetic) and emit the cell.
The cells are collected in row-major order. -/
def renderCells (brightness : List ℚ) (w h : Nat) : Option (List Cell) :=
  (List.range h).foldlM
    (fun cells y =>
      (List.range w).foldlM
        (fun cells x =>
          (getChecked brightness (u16add (u16mul (u16mul y 2) w) x)).bind fun top =>
          (getChecked brightness (u16add (u16mul (u16add (u16mul y 2) 1) w) x)).bind fun bottom =>
          some (cells ++ [Cell.mk (brightnessColor top) (brightnessColor bottom) halfBlock]))
        cells)
    []

/-- `x_step = (x_max - x_min) / area.width as f64` (line 141). -/
def xStepOf (m : Mandelbrot) (w : Nat) : ℚ := (m.x_max - m.x_min) / (w : ℚ)

/-- `y_step = (y_max - y_min) / area.height as f64 / 2.0` (line 142). -/
def yStepOf (m : Mandelbrot) (h : Nat) : ℚ := (m.y_max - m.y_min) / (h : ℚ) / 2

/-- The pixels array computed by `render` for grid size `w × h`. -/
def pixelsOf (m : Mandelbrot) (w h : Nat) : Option (List Nat) :=
  fillPixels m w h (xStepOf m w) (yStepOf m h)

/-- `<&Mandelbrot as Widget>::render` (lines 140-198), composed from the
stages above.  The result is the row-major list of the `w * h` cells the
widget writes into the buffer; `none` models a panic. -/
def Mandelbrot.render (m : Mandelbrot) (w h : Nat) : Option (List Cell) :=
  (pixelsOf m w h).bind fun pixels =>
  (buildHistogram m.max_iterations pixels).bind fun histogram =>
  (sumTotal histogram).bind fun total =>
  (pixels.mapM (sampleBrightness m.max_iterations total histogram)).bind fun brightness =>
  renderCells brightness w h

/-! ### General lemmas about `Option`-valued folds -/

/-- Invariant-based success lemma for `foldlM` over `Option`, tracking the
processed prefix of the list. -/
theorem foldlM_option_elem_ind {α β : Type} (f : β → α → Option β) (Q : List α → β → Prop) :
    ∀ (l done : List α) (init : β), Q done init →
      (∀ d a b, a ∈ l → Q d b → ∃ b', f b a = some b' ∧ Q (d ++ [a]) b') →
      ∃ r, l.foldlM f init = some r ∧ Q (done ++ l) r := by
  intro l
  induction l with
  | nil => intro done init h0 _; exact ⟨init, by simp [List.foldlM_nil], by simpa using h0⟩
  | cons a t ih =>
    intro done init h0 hstep
    obtain ⟨b', hb', hq⟩ := hstep done a init (by simp) h0
    obtain ⟨r, hr, hqr⟩ := ih (done ++ [a]) b' hq
      (fun d x b hx hq => hstep d x b (by simp [hx]) hq)
    refine ⟨r, ?_, by simpa [List.append_assoc] using hqr⟩
    rw [List.foldlM_cons]
    simp only [hb', Option.bind_eq_bind, Option.some_bind]
    exact hr

/-- Invariant-based success lemma for `foldlM` over `List.range`. -/
theorem foldlM_range_ind {β : Type} (f : β → Nat → Option β) (Q : Nat → β → Prop) :
    ∀ (n : Nat) (init : β), Q 0 init →
      (∀ i b, i < n → Q i b → ∃ b', f b i = some b' ∧ Q (i + 1) b') →
      ∃ r, (List.range n).foldlM f init = some r ∧ Q n r := by
  intro n
  induction n with
  | zero => intro init h0 _; exact ⟨init, by simp [List.foldlM_nil], h0⟩
  | succ n ih =>
    intro init h0 hstep
    obtain ⟨r, hr, hq⟩ := ih init h0 (fun i b hi => hstep i b (Nat.lt_succ_of_lt hi))
    obtain ⟨r', hr', hq'⟩ := hstep n r (Nat.lt_succ_self n) hq
    refine ⟨r', ?_, hq'⟩
    rw [List.range_succ, List.foldlM_append]
    simp only [hr, Option.bind_eq_bind, Option.some_bind, List.foldlM_cons, List.foldlM_nil]
    simp [hr']

/-- Propagation of a property through a successful `foldlM` over `Option`. -/
theorem foldlM_some_ind {α β : Type} (f : β → α → Option β) (P : β → Prop) :
    ∀ (l : List α) (init r : β), l.foldlM f init = some r → P init →
      (∀ b a b', a ∈ l → P b → f b a = some b' → P b') → P r := by
  intro l
  induction l with
  | nil => intro init r h h0 _; rw [List.foldlM_nil] at h; cases h; exact h0
  | cons a t ih =>
    intro init r h h0 hstep
    rw [List.foldlM_cons] at h
    simp only [Option.bind_eq_bind] at h
    obtain ⟨b₀, hb₀, hrest⟩ := Option.bind_eq_some.mp h
    exact ih b₀ r hrest (hstep init a b₀ (by simp) h0 hb₀)
      (fun b x b' hx => hstep b x b' (by simp [hx]))

/-- A successful `mapM` over `Option` relates input and output pointwise. -/
theorem mapM_option_forall {α β : Type} (f : α → Option β) :
    ∀ (l : List α) (res : List β), l.mapM f = some res →
      List.Forall₂ (fun a b => f a = some b) l res := by
  intro l
  induction l with
  | nil =>
    intro res h; rw [List.mapM_nil] at h; cases h; exact List.Forall₂.nil
  | cons a t ih =>
    intro res h
    rw [List.mapM_cons] at h
    simp only [Option.bind_eq_bind, Option.pure_def] at h
    obtain ⟨b, hb, h2⟩ := Option.bind_eq_some.mp h
    obtain ⟨bs, hbs, h3⟩ := Option.bind_eq_some.mp h2
    cases h3
    exact List.Forall₂.cons hb (ih bs hbs)

/-- `mapM` over `Option` succeeds when every element is mapped successfully. -/
theorem mapM_option_some {α β : Type} (f : α → Option β) :
    ∀ l : List α, (∀ a ∈ l, ∃ b, f a = some b) → ∃ res, l.mapM f = some res := by
  intro l
  induction l with
  | nil => intro _; exact ⟨[], by rw [List.mapM_nil]; rfl⟩
  | cons a t ih =>
    intro h
    obtain ⟨b, hb⟩ := h a (by simp)
    obtain ⟨bs, hbs⟩ := ih (fun x hx => h x (by simp [hx]))
    refine ⟨b :: bs, ?_⟩
    rw [List.mapM_cons, hb, hbs]
    rfl

/-- A `mapM` over `Option` whose function is constantly `some z` yields a
replicated list. -/
theorem mapM_option_const {α β : Type} (f : α → Option β) (z : β) :
    ∀ l : List α, (∀ a ∈ l, f a = some z) → l.mapM f = some (List.replicate l.length z) := by
  intro l
  induction l with
  | nil => intro _; rw [List.mapM_nil]; rfl
  | cons a t ih =>
    intro h
    rw [List.mapM_cons, h a (by simp), ih (fun x hx => h x (by simp [hx]))]
    rfl

/-- Pointwise transfer along a `Forall₂` via `getElem?`. -/
theorem forall₂_getElem? {α β : Type} (R : α → β → Prop) :
    ∀ (l : List α) (l' : List β), List.Forall₂ R l l' →
      ∀ (i : Nat) (a : α) (b : β), l[i]? = some a → l'[i]? = some b → R a b := by
  intro l l' h
  induction h with
  | nil => intro i a b h1 _; simp at h1
  | cons hR _ ih =>
    intro i a b h1 h2
    cases i with
    | zero => simp at h1 h2; cases h1; cases h2; exact hR
    | succ i => simp at h1 h2; exact ih i a b h1 h2

/-- Setting exactly at the boundary between a prefix and a cons cell. -/
theorem set_append_cons {α : Type} :
    ∀ (pre : List α) (a v : α) (rest : List α),
      (pre ++ a :: rest).set pre.length v = pre ++ v :: rest := by
  intro pre
  induction pre with
  | nil => intro a v rest; simp
  | cons x xs ih => intro a v rest; simp [List.set, ih a v rest]

/-- The sum of a prefix of a `Nat` list plus a later element is at most the
total sum. -/
theorem take_sum_add_le (l : List Nat) (i v : Nat) (h : l[i]? = some v) :
    (l.take i).sum + v ≤ l.sum := by
  obtain ⟨hi, hv⟩ := List.getElem?_eq_some_iff.mp h
  conv_rhs => rw [← List.take_append_drop i l]
  rw [List.sum_append, List.drop_eq_getElem_cons hi, List.sum_cons, hv]
  exact Nat.add_le_add_left (Nat.le_add_right v _) _

/-- Prefix sums of a `Nat` list are monotone in the prefix length. -/
theorem take_sum_mono (l : List Nat) : ∀ i j : Nat, i ≤ j → (l.take i).sum ≤ (l.take j).sum := by
  induction l with
  | nil => intro i j _; simp
  | cons a t ih =>
    intro i j hij
    cases i with
    | zero => simp
    | succ i =>
      cases j with
      | zero => omega
      | succ j => simp only [List.take_succ_cons, List.sum_cons]
                  exact Nat.add_le_add_left (ih i j (Nat.le_of_succ_le_succ hij)) a

/-! ### Characterization of the escape loop -/

/-- Unfolding the wrapping operations when no wrap occurs. -/
theorem u16mul_eq (a b : Nat) (h : a * b < 65536) : u16mul a b = a * b := Nat.mod_eq_of_lt h

/-- Unfolding the wrapping addition when no wrap occurs. -/
theorem u16add_eq (a b : Nat) (h : a + b < 65536) : u16add a b = a + b := Nat.mod_eq_of_lt h

/-- The loop of lines 150-156 returns the least `n` at which the loop
condition fails, starting from an arbitrary loop state `(orbit c n, n)`. -/
theorem escapeGo_char (maxIter : Nat) (c : ℚ × ℚ) :
    ∀ (fuel n : Nat), n ≤ maxIter → maxIter ≤ n + fuel →
      ∃ r, escapeGo maxIter c fuel (orbit c n) n = r ∧ n ≤ r ∧ r ≤ maxIter ∧
        (4 < normSqr (orbit c r) ∨ r = maxIter) ∧
        (∀ m, n ≤ m → m < r → ¬(4 < normSqr (orbit c m) ∨ m = maxIter)) := by
  intro fuel
  induction fuel with
  | zero =>
    intro n h1 h2
    refine ⟨n, rfl, Nat.le_refl n, h1, Or.inr (by omega), ?_⟩
    intro m hm1 hm2
    omega
  | succ fuel ih =>
    intro n h1 h2
    by_cases hcond : normSqr (orbit c n) ≤ 4 ∧ n < maxIter
    · obtain ⟨r, hr, hnr, hrm, hP, hleast⟩ := ih (n + 1) hcond.2 (by omega)
      refine ⟨r, ?_, by omega, hrm, hP, ?_⟩
      · rw [escapeGo, if_pos hcond, ← orbit]
        exact hr
      · intro m hm1 hm2
        rcases Nat.eq_or_lt_of_le hm1 with hm | hm
        · subst hm
          intro hbad
          rcases hbad with hbad | hbad
          · exact absurd hcond.1 (not_le.mpr hbad)
          · omega
        · exact hleast m hm hm2
    · refine ⟨n, ?_, Nat.le_refl n, h1, ?_, ?_⟩
      · rw [escapeGo, if_neg hcond]
      · rcases not_and_or.mp hcond with hbad | hbad
        · exact Or.inl (not_le.mp hbad)
        · exact Or.inr (by omega)
      · intro m hm1 hm2
        omega

/-- `escapeCount` never exceeds `max_iterations`. -/
theorem escapeCount_le (maxIter : Nat) (c : ℚ × ℚ) : escapeCount maxIter c ≤ maxIter := by
  obtain ⟨r, hr, _, hrm, _, _⟩ :=
    escapeGo_char maxIter c maxIter 0 (Nat.zero_le _) (by omega)
  rw [escapeCount]
  rw [show ((0 : ℚ), (0 : ℚ)) = orbit c 0 from rfl, hr]
  exact hrm

/-- `escapeCount maxIter c` is the first `n` at which the orbit has escaped
(`|z|² > 4`) or `n = maxIter`, and no earlier `n` satisfies either. -/
theorem escapeCount_char (maxIter : Nat) (c : ℚ × ℚ) :
    (4 < normSqr (orbit c (escapeCount maxIter c)) ∨ escapeCount maxIter c = maxIter) ∧
    ∀ m < escapeCount maxIter c, ¬(4 < normSqr (orbit c m) ∨ m = maxIter) := by
  obtain ⟨r, hr, _, _, hP, hleast⟩ :=
    escapeGo_char maxIter c maxIter 0 (Nat.zero_le _) (by omega)
  have hc : escapeCount maxIter c = r := by
    rw [escapeCount, show ((0 : ℚ), (0 : ℚ)) = orbit c 0 from rfl, hr]
  rw [hc]
  exact ⟨hP, fun m hm => hleast m (Nat.zero_le m) hm⟩

/-! ### The pixels array, functionally -/

/-- Row `y` of the pixels array: the escape counts of the `w` sample points
of that row, in order of increasing `x`. -/
def pixelRow (m : Mandelbrot) (w : Nat) (xStep yStep : ℚ) (y : Nat) : List Nat :=
  (List.range w).map fun x => escapeCount m.max_iterations (samplePoint m xStep yStep x y)

/-- The pixels array as a pure row-major list: `2 * h` rows of `w` counts. -/
def pixelsSpec (m : Mandelbrot) (w h : Nat) (xStep yStep : ℚ) : List Nat :=
  (List.range (2 * h)).flatMap (pixelRow m w xStep yStep)

theorem pixelRow_length (m : Mandelbrot) (w : Nat) (xs ys : ℚ) (y : Nat) :
    (pixelRow m w xs ys y).length = w := by simp [pixelRow]

theorem flatMap_range_length (g : Nat → List Nat) (w : Nat) (hg : ∀ y, (g y).length = w) :
    ∀ k, ((List.range k).flatMap g).length = k * w := by
  intro k
  induction k with
  | zero => simp
  | succ k ih =>
    rw [List.range_succ, List.flatMap_append]
    simp [ih, hg, Nat.succ_mul]

theorem flatMap_range_getElem (g : Nat → List Nat) (w : Nat) (hg : ∀ y, (g y).length = w) :
    ∀ (k x y : Nat), y < k → x < w →
      ((List.range k).flatMap g)[y * w + x]? = (g y)[x]? := by
  intro k
  induction k with
  | zero => intro x y hy _; omega
  | succ k ih =>
    intro x y hy hx
    rw [List.range_succ, List.flatMap_append]
    by_cases h : y < k
    · rw [List.getElem?_append_left]
      · exact ih x y h hx
      · rw [flatMap_range_length g w hg]
        calc y * w + x < y * w + w := by omega
          _ = (y + 1) * w := (Nat.succ_mul y w).symm
          _ ≤ k * w := Nat.mul_le_mul_right w (by omega)
    · have hyk : y = k := by omega
      subst hyk
      rw [List.getElem?_append_right (by rw [flatMap_range_length g w hg]; omega)]
      rw [flatMap_range_length g w hg]
      have : y * w + x - y * w = x := by omega
      rw [this]
      simp [List.getElem?_append_left, hg y, hx]

theorem pixelsSpec_length (m : Mandelbrot) (w h : Nat) (xs ys : ℚ) :
    (pixelsSpec m w h xs ys).length = 2 * h * w :=
  flatMap_range_length _ w (pixelRow_length m w xs ys) (2 * h)

theorem pixelsSpec_getElem (m : Mandelbrot) (w h : Nat) (xs ys : ℚ) (x y : Nat)
    (hx : x < w) (hy : y < 2 * h) :
    (pixelsSpec m w h xs ys)[y * w + x]? =
      some (escapeCount m.max_iterations (samplePoint m xs ys x y)) := by
  rw [pixelsSpec, flatMap_range_getElem _ w (pixelRow_length m w xs ys) (2 * h) x y hy hx]
  rw [pixelRow, List.getElem?_map, List.getElem?_range hx]
  rfl

theorem mem_pixelsSpec_le (m : Mandelbrot) (w h : Nat) (xs ys : ℚ) (n : Nat)
    (hn : n ∈ pixelsSpec m w h xs ys) : n ≤ m.max_iterations := by
  rw [pixelsSpec, List.mem_flatMap] at hn
  obtain ⟨y, _, hy⟩ := hn
  rw [pixelRow, List.mem_map] at hy
  obtain ⟨x, _, hx⟩ := hy
  rw [← hx]
  exact escapeCount_le m.max_iterations _

/-- The inner `for x` loop of lines 145-159, started on a pixels buffer that
holds `y * w` already-filled entries followed by zeros, fills the next row. -/
theorem fillPixels_row (m : Mandelbrot) (w h : Nat) (xs ys : ℚ) (y : Nat)
    (hy : y < 2 * h) (hs : 2 * (w * h) ≤ 65535) (rowsy : List Nat)
    (hlen : rowsy.length = y * w) :
    (List.range w).foldlM
        (fun pixels x => setChecked pixels (u16add (u16mul y w) x)
          (escapeCount m.max_iterations (samplePoint m xs ys x y)))
        (rowsy ++ List.replicate ((2 * h - y) * w) 0) =
      some (rowsy ++ pixelRow m w xs ys y ++ List.replicate ((2 * h - (y + 1)) * w) 0) := by
  have hyw : y * w + w ≤ 2 * (w * h) := by
    calc y * w + w = (y + 1) * w := (Nat.succ_mul y w).symm
      _ ≤ (2 * h) * w := Nat.mul_le_mul_right w (by omega)
      _ = 2 * (w * h) := by ring
  have hA : w ≤ (2 * h - y) * w := Nat.le_mul_of_pos_left w (by omega)
  have hAval : y * w + (2 * h - y) * w = 2 * (w * h) := by
    rw [← Nat.add_mul]
    have : y + (2 * h - y) = 2 * h := by omega
    rw [this]; ring
  have hstep : ∀ (x : Nat) (b : List Nat), x < w →
      b = rowsy ++ ((List.range x).map fun x' =>
          escapeCount m.max_iterations (samplePoint m xs ys x' y)) ++
        List.replicate ((2 * h - y) * w - x) 0 →
      ∃ b', setChecked b (u16add (u16mul y w) x)
          (escapeCount m.max_iterations (samplePoint m xs ys x y)) = some b' ∧
        b' = rowsy ++ ((List.range (x + 1)).map fun x' =>
            escapeCount m.max_iterations (samplePoint m xs ys x' y)) ++
          List.replicate ((2 * h - y) * w - (x + 1)) 0 := by
    intro x b hx hb
    subst hb
    have hidx : u16add (u16mul y w) x = y * w + x := by
      rw [u16mul_eq y w (by omega), u16add_eq (y * w) x (by omega)]
    have hdone : (rowsy ++ (List.range x).map fun x' =>
        escapeCount m.max_iterations (samplePoint m xs ys x' y)).length = y * w + x := by
      simp [hlen]
    have hK : (2 * h - y) * w - x = ((2 * h - y) * w - (x + 1)) + 1 := by omega
    have hlt : u16add (u16mul y w) x <
        (rowsy ++ ((List.range x).map fun x' =>
            escapeCount m.max_iterations (samplePoint m xs ys x' y)) ++
          List.replicate ((2 * h - y) * w - x) 0).length := by
      rw [hidx]
      simp only [List.length_append, List.length_replicate, List.length_map,
        List.length_range, hlen]
      omega
    refine ⟨(rowsy ++ ((List.range x).map fun x' =>
          escapeCount m.max_iterations (samplePoint m xs ys x' y)) ++
        List.replicate ((2 * h - y) * w - x) 0).set (u16add (u16mul y w) x)
          (escapeCount m.max_iterations (samplePoint m xs ys x y)),
      by rw [setChecked, if_pos hlt], ?_⟩
    rw [hidx, List.append_assoc, hK, List.replicate_succ]
    rw [show y * w + x = (rowsy ++ (List.range x).map fun x' =>
        escapeCount m.max_iterations (samplePoint m xs ys x' y)).length from hdone.symm]
    rw [← List.append_assoc, set_append_cons]
    rw [List.range_succ, List.map_append, List.append_assoc, List.append_assoc]
    simp
  obtain ⟨r, hr, hq⟩ := foldlM_range_ind
    (fun pixels x => setChecked pixels (u16add (u16mul y w) x)
      (escapeCount m.max_iterations (samplePoint m xs ys x y)))
    (fun x pixels => pixels =
      rowsy ++ ((List.range x).map fun x' =>
          escapeCount m.max_iterations (samplePoint m xs ys x' y)) ++
        List.replicate ((2 * h - y) * w - x) 0)
    w (rowsy ++ List.replicate ((2 * h - y) * w) 0) (by simp)
    (fun x b hx hb => hstep x b hx hb)
  rw [hr, hq, pixelRow]
  have hsub : (2 * h - y) * w - w = (2 * h - (y + 1)) * w := by
    rw [show 2 * h - (y + 1) = (2 * h - y) - 1 from by omega,
      Nat.sub_mul (2 * h - y) 1 w, Nat.one_mul]
  rw [hsub]

/-- Lines 143-160 compute exactly the row-major pixels list, provided the
`u16` size arithmetic does not wrap. -/
theorem fillPixels_eq (m : Mandelbrot) (w h : Nat) (xs ys : ℚ)
    (hs : 2 * (w * h) ≤ 65535) :
    fillPixels m w h xs ys = some (pixelsSpec m w h xs ys) := by
  rcases Nat.eq_zero_or_pos w with hw0 | hwpos
  · subst hw0
    rw [fillPixels]
    have hsz : u16mul (u16mul 0 h) 2 = 0 := by simp [u16mul]
    rw [hsz]
    obtain ⟨r, hr, hq⟩ := foldlM_range_ind
      (fun pixels y => (List.range 0).foldlM
        (fun pixels x => setChecked pixels (u16add (u16mul y 0) x)
          (escapeCount m.max_iterations (samplePoint m xs ys x y))) pixels)
      (fun _ pixels => pixels = ([] : List Nat))
      (u16mul h 2) (List.replicate 0 0) rfl
      (fun i b _ hb => ⟨b, by simp [List.foldlM_nil], hb⟩)
    rw [hr, hq]
    have : pixelsSpec m 0 h xs ys = [] := by
      have := pixelsSpec_length m 0 h xs ys
      rw [Nat.mul_zero] at this
      exact List.eq_nil_of_length_eq_zero this
    rw [this]
  · have hhw : h ≤ w * h := Nat.le_mul_of_pos_left h hwpos
    have hh2 : u16mul h 2 = h * 2 := u16mul_eq h 2 (by omega)
    have hwh : u16mul w h = w * h := u16mul_eq w h (by omega)
    have hwh2 : u16mul (w * h) 2 = w * h * 2 := u16mul_eq (w * h) 2 (by omega)
    rw [fillPixels, hh2, hwh, hwh2]
    have hinit : List.replicate (w * h * 2) (0 : Nat) =
        (List.range 0).flatMap (pixelRow m w xs ys) ++
          List.replicate ((2 * h - 0) * w) 0 := by
      have : (2 * h - 0) * w = w * h * 2 := by rw [Nat.sub_zero]; ring
      simp [this]
      ring
    have hstep : ∀ (y : Nat) (b : List Nat), y < h * 2 →
        b = (List.range y).flatMap (pixelRow m w xs ys) ++
          List.replicate ((2 * h - y) * w) 0 →
        ∃ b', (List.range w).foldlM
            (fun pixels x => setChecked pixels (u16add (u16mul y w) x)
              (escapeCount m.max_iterations (samplePoint m xs ys x y))) b = some b' ∧
          b' = (List.range (y + 1)).flatMap (pixelRow m w xs ys) ++
            List.replicate ((2 * h - (y + 1)) * w) 0 := by
      intro y b hy hb
      subst hb
      refine ⟨_, fillPixels_row m w h xs ys y (by omega) hs
        ((List.range y).flatMap (pixelRow m w xs ys))
        (flatMap_range_length _ w (pixelRow_length m w xs ys) y), ?_⟩
      simp [List.range_succ, List.flatMap_append, List.append_assoc]
    obtain ⟨r, hr, hq⟩ := foldlM_range_ind
      (fun pixels y => (List.range w).foldlM
        (fun pixels x => setChecked pixels (u16add (u16mul y w) x)
          (escapeCount m.max_iterations (samplePoint m xs ys x y))) pixels)
      (fun y pixels => pixels =
        (List.range y).flatMap (pixelRow m w xs ys) ++
          List.replicate ((2 * h - y) * w) 0)
      (h * 2) (List.replicate (w * h * 2) 0) hinit
      (fun y b hy hb => hstep y b hy hb)
    rw [hr, hq]
    congr 1
    have h0 : 2 * h - h * 2 = 0 := by omega
    rw [h0, Nat.zero_mul, List.replicate_zero, List.append_nil, pixelsSpec,
      Nat.mul_comm h 2]

/-! ### Histogram, total and brightness -/

/-- Lines 164-169 always succeed; the histogram has `max_iterations + 1`
buckets, and the bucket of every escaped sample is nonzero. -/
theorem buildHistogram_spec (maxIter : Nat) (pixels : List Nat) :
    ∃ hist, buildHistogram maxIter pixels = some hist ∧
      hist.length = maxIter + 1 ∧
      ∀ c ∈ pixels, c < maxIter → ∃ v, hist[c]? = some v ∧ 1 ≤ v := by
  have hstep : ∀ (d : List Nat) (a : Nat) (hist : List Nat), a ∈ pixels →
      (hist.length = maxIter + 1 ∧
        ∀ c ∈ d, c < maxIter → ∃ v, hist[c]? = some v ∧ 1 ≤ v) →
      ∃ hist', (if a < maxIter then
          match getChecked hist a with
          | some v => setChecked hist a (v + 1)
          | none => none
        else pure hist) = some hist' ∧
        (hist'.length = maxIter + 1 ∧
          ∀ c ∈ d ++ [a], c < maxIter → ∃ v, hist'[c]? = some v ∧ 1 ≤ v) := by
    intro d a hist _ hq
    obtain ⟨hlen, hprev⟩ := hq
    by_cases hac : a < maxIter
    · have hal : a < hist.length := by omega
      have hget : getChecked hist a = some hist[a] := by
        rw [getChecked, List.getElem?_eq_getElem hal]
      refine ⟨hist.set a (hist[a] + 1), ?_, ?_, ?_⟩
      · rw [if_pos hac, hget]
        show setChecked hist a (hist[a] + 1) = _
        rw [setChecked, if_pos hal]
      · rw [List.length_set]; exact hlen
      · intro c hc hcm
        rcases List.mem_append.mp hc with hcd | hca
        · by_cases hca : c = a
          · subst hca
            refine ⟨hist[c] + 1, ?_, by omega⟩
            rw [List.getElem?_set_self', List.getElem?_eq_getElem hal]
            rfl
          · obtain ⟨v, hv, h1⟩ := hprev c hcd hcm
            exact ⟨v, by rw [List.getElem?_set_ne (fun h => hca h.symm)]; exact hv, h1⟩
        · have hca : c = a := by simpa using hca
          subst hca
          refine ⟨hist[c] + 1, ?_, by omega⟩
          rw [List.getElem?_set_self', List.getElem?_eq_getElem hal]
          rfl
    · refine ⟨hist, by rw [if_neg hac]; rfl, hlen, ?_⟩
      intro c hc hcm
      rcases List.mem_append.mp hc with hcd | hca
      · exact hprev c hcd hcm
      · have : c = a := by simpa using hca
        omega
  obtain ⟨r, hr, hq⟩ := foldlM_option_elem_ind
    (fun histogram count =>
      if count < maxIter then
        match getChecked histogram count with
        | some v => setChecked histogram count (v + 1)
        | none => none
      else pure histogram)
    (fun done hist => hist.length = maxIter + 1 ∧
      ∀ c ∈ done, c < maxIter → ∃ v, hist[c]? = some v ∧ 1 ≤ v)
    pixels [] (List.replicate (maxIter + 1) 0)
    ⟨by simp, by simp⟩ (fun d a b ha hb => hstep d a b ha hb)
  refine ⟨r, hr, hq.1, ?_⟩
  intro c hc
  exact hq.2 c (by simpa using hc)

/-- Lines 171-174 compute the sum of the histogram. -/
theorem sumTotal_eq (hist : List Nat) : sumTotal hist = some hist.sum := by
  have hstep : ∀ (i b : Nat), i < hist.length → b = (hist.take i).sum →
      ∃ b', (getChecked hist i).map (fun v => b + v) = some b' ∧
        b' = (hist.take (i + 1)).sum := by
    intro i b hi hb
    subst hb
    refine ⟨(hist.take i).sum + hist[i], ?_, ?_⟩
    · rw [getChecked, List.getElem?_eq_getElem hi]
      rfl
    · rw [List.sum_take_succ hist i hi]
  obtain ⟨r, hr, hq⟩ := foldlM_range_ind
    (fun total i => (getChecked hist i).map (fun v => total + v))
    (fun i b => b = (hist.take i).sum)
    hist.length 0 (by simp) (fun i b hi hb => hstep i b hi hb)
  rw [sumTotal, hr, hq, List.take_length]

/-- A non-escaped sample (`count = max_iterations`) gets brightness `0`
(the `continue` of lines 178-180). -/
theorem sampleBrightness_max (maxIter total : Nat) (hist : List Nat) :
    sampleBrightness maxIter total hist maxIter = some 0 := by
  rw [sampleBrightness, if_pos rfl]
  rfl

/-- For an escaped sample, lines 181-183 compute the cumulative histogram
fraction `(Σ_{i<count} histogram[i]) / total`. -/
theorem sampleBrightness_eq (maxIter total : Nat) (hist : List Nat) (count : Nat)
    (hne : count ≠ maxIter) (hle : count ≤ hist.length) :
    sampleBrightness maxIter total hist count =
      some (((hist.take count).sum : ℚ) / (total : ℚ)) := by
  have hstep : ∀ (i : Nat) (b : ℚ), i < count →
      b = ((hist.take i).sum : ℚ) / (total : ℚ) →
      ∃ b', (getChecked hist i).map (fun v => b + (v : ℚ) / (total : ℚ)) = some b' ∧
        b' = ((hist.take (i + 1)).sum : ℚ) / (total : ℚ) := by
    intro i b hi hb
    subst hb
    have hil : i < hist.length := lt_of_lt_of_le hi hle
    refine ⟨((hist.take i).sum : ℚ) / (total : ℚ) + (hist[i] : ℚ) / (total : ℚ), ?_, ?_⟩
    · rw [getChecked, List.getElem?_eq_getElem hil]
      rfl
    · rw [List.sum_take_succ hist i hil, div_add_div_same]
      push_cast
      rfl
  obtain ⟨r, hr, hq⟩ := foldlM_range_ind
    (fun b i => (getChecked hist i).map (fun v => b + (v : ℚ) / (total : ℚ)))
    (fun i b => b = ((hist.take i).sum : ℚ) / (total : ℚ))
    count 0 (by simp) (fun i b hi hb => hstep i b hi hb)
  rw [sampleBrightness, if_neg hne, hr, hq]

/-- Brightness bounds: with `total = hist.sum` (as computed by lines
171-174), every sample brightness lies in `[0, 1)`, and non-escaped samples
get exactly `0`. -/
theorem sampleBrightness_bounds (maxIter : Nat) (hist : List Nat) (count : Nat)
    (hlen : hist.length = maxIter + 1) (hcle : count ≤ maxIter)
    (hbucket : count < maxIter → ∃ v, hist[count]? = some v ∧ 1 ≤ v)
    (b : ℚ) (hb : sampleBrightness maxIter hist.sum hist count = some b) :
    0 ≤ b ∧ b < 1 ∧ (count = maxIter → b = 0) := by
  by_cases hc : count = maxIter
  · subst hc
    rw [sampleBrightness_max] at hb
    have hb0 : b = 0 := (Option.some.injEq _ _).mp hb.symm
    subst hb0
    exact ⟨le_refl 0, by norm_num, fun _ => rfl⟩
  · have hclt : count < maxIter := lt_of_le_of_ne hcle hc
    obtain ⟨v, hv, h1v⟩ := hbucket hclt
    rw [sampleBrightness_eq maxIter hist.sum hist count hc (by omega)] at hb
    have hbval : b = ((hist.take count).sum : ℚ) / (hist.sum : ℚ) :=
      ((Option.some.injEq _ _).mp hb).symm
    subst hbval
    have hST : (hist.take count).sum + v ≤ hist.sum := take_sum_add_le hist count v hv
    have hSlt : (hist.take count).sum < hist.sum := by omega
    have hTpos : 0 < hist.sum := by omega
    refine ⟨div_nonneg (by positivity) (by positivity), ?_, fun hcontra => absurd hcontra hc⟩
    rw [div_lt_one (by exact_mod_cast hTpos)]
    exact_mod_cast hSlt

/-- Brightness monotonicity in the escape count, for a fixed histogram and
total. -/
theorem sampleBrightness_mono (maxIter total : Nat) (hist : List Nat)
    (n1 n2 : Nat) (h12 : n1 ≤ n2) (h2 : n2 < maxIter) (hlen : hist.length = maxIter + 1)
    (b1 b2 : ℚ) (hb1 : sampleBrightness maxIter total hist n1 = some b1)
    (hb2 : sampleBrightness maxIter total hist n2 = some b2) : b1 ≤ b2 := by
  rw [sampleBrightness_eq maxIter total hist n1 (by omega) (by omega)] at hb1
  rw [sampleBrightness_eq maxIter total hist n2 (by omega) (by omega)] at hb2
  have e1 : b1 = ((hist.take n1).sum : ℚ) / (total : ℚ) :=
    ((Option.some.injEq _ _).mp hb1).symm
  have e2 : b2 = ((hist.take n2).sum : ℚ) / (total : ℚ) :=
    ((Option.some.injEq _ _).mp hb2).symm
  subst e1
  subst e2
  rcases Nat.eq_zero_or_pos total with ht0 | htpos
  · subst ht0
    norm_num
  · have hTpos : (0 : ℚ) < (total : ℚ) := by exact_mod_cast htpos
    rw [div_le_div_iff_of_pos_right hTpos]
    exact_mod_cast take_sum_mono hist n1 n2 h12

/-! ### Color conversion and the cell loop -/

/-- Brightness `0` maps to black (`Rgb(0, 0, 0)`). -/
theorem brightnessColor_zero : brightnessColor 0 = Rgb.mk 0 0 0 := by
  rw [brightnessColor, f64ToU8]
  norm_num

/-- A brightness strictly below `1` maps to a blue channel of at most `254`:
`floor (b * 255) ≤ 254` and the saturating cast keeps that bound. -/
theorem f64ToU8_le_254 (b : ℚ) (hb : b < 1) : f64ToU8 (b * 255) ≤ 254 := by
  rw [f64ToU8]
  have hfl : ⌊b * 255⌋ < 255 := by
    rw [Int.floor_lt]
    have := mul_lt_mul_of_pos_right hb (show (0 : ℚ) < 255 by norm_num)
    push_cast
    linarith
  have hmin : min 255 ⌊b * 255⌋ ≤ 254 := le_trans (min_le_right _ _) (by omega)
  have hmax : max 0 (min 255 ⌊b * 255⌋) ≤ (254 : ℤ) := max_le (by norm_num) hmin
  rw [Int.toNat_le]
  exact_mod_cast hmax

/-- The cell loop of lines 186-197 succeeds and emits one cell per display
cell, `w * h` in total, when the brightness array has its nominal
`2 * h * w` entries and the `u16` index arithmetic cannot wrap. -/
theorem renderCells_spec (brightness : List ℚ) (w h : Nat)
    (hs : 2 * (w * h) ≤ 65535) (hlen : brightness.length = 2 * h * w) :
    ∃ cells, renderCells brightness w h = some cells ∧ cells.length = w * h := by
  have hstep : ∀ (y : Nat) (cells : List Cell), y < h → cells.length = y * w →
      ∃ cells', (List.range w).foldlM
          (fun cells x =>
            (getChecked brightness (u16add (u16mul (u16mul y 2) w) x)).bind fun top =>
            (getChecked brightness (u16add (u16mul (u16add (u16mul y 2) 1) w) x)).bind
              fun bottom =>
            some (cells ++ [Cell.mk (brightnessColor top) (brightnessColor bottom) halfBlock]))
          cells = some cells' ∧
        cells'.length = (y + 1) * w := by
    intro y cells hy hcl
    have hinner : ∀ (x : Nat) (cs : List Cell), x < w → cs.length = y * w + x →
        ∃ cs', ((getChecked brightness (u16add (u16mul (u16mul y 2) w) x)).bind fun top =>
            (getChecked brightness (u16add (u16mul (u16add (u16mul y 2) 1) w) x)).bind
              fun bottom =>
            some (cs ++ [Cell.mk (brightnessColor top) (brightnessColor bottom) halfBlock])) =
            some cs' ∧
          cs'.length = y * w + (x + 1) := by
      intro x cs hx hcsl
      have hwpos : 0 < w := by omega
      have hhwh : h ≤ w * h := Nat.le_mul_of_pos_left h hwpos
      have hy2 : u16mul y 2 = y * 2 := by
        apply u16mul_eq
        omega
      have hy2w : y * 2 * w + 2 * w ≤ 2 * (w * h) := by
        calc y * 2 * w + 2 * w = (y * 2 + 2) * w := by ring
          _ ≤ (2 * h) * w := Nat.mul_le_mul_right w (by omega)
          _ = 2 * (w * h) := by ring
      have htop : u16add (u16mul (u16mul y 2) w) x = y * 2 * w + x := by
        rw [hy2, u16mul_eq (y * 2) w (by omega), u16add_eq (y * 2 * w) x (by omega)]
      have hbotidx : y * 2 * w + w + x < 2 * (w * h) + 1 := by omega
      have hbot : u16add (u16mul (u16add (u16mul y 2) 1) w) x = (y * 2 + 1) * w + x := by
        rw [hy2, u16add_eq (y * 2) 1 (by omega)]
        rw [u16mul_eq (y * 2 + 1) w (by rw [Nat.succ_mul]; omega)]
        rw [u16add_eq ((y * 2 + 1) * w) x (by rw [Nat.succ_mul]; omega)]
      have htoplt : y * 2 * w + x < brightness.length := by
        rw [hlen]
        have : 2 * h * w = 2 * (w * h) := by ring
        omega
      have hbotlt : (y * 2 + 1) * w + x < brightness.length := by
        rw [hlen, Nat.succ_mul]
        have : 2 * h * w = 2 * (w * h) := by ring
        omega
      refine ⟨cs ++ [Cell.mk (brightnessColor brightness[y * 2 * w + x])
          (brightnessColor brightness[(y * 2 + 1) * w + x]) halfBlock], ?_, ?_⟩
      · rw [htop, hbot, getChecked, List.getElem?_eq_getElem htoplt]
        rw [getChecked, List.getElem?_eq_getElem hbotlt]
        rfl
      · simp [hcsl]
        omega
    obtain ⟨cs', hcs', hq⟩ := foldlM_range_ind _
      (fun x cs => cs.length = y * w + x) w cells (by simpa using hcl)
      (fun x cs hx hc => hinner x cs hx hc)
    refine ⟨cs', hcs', ?_⟩
    rw [hq, Nat.succ_mul]
  obtain ⟨cells, hcells, hq⟩ := foldlM_range_ind _
    (fun y cells => cells.length = y * w) h ([] : List Cell) (by simp)
    (fun y cells hy hc => hstep y cells hy hc)
  refine ⟨cells, ?_, by rw [hq]; ring⟩
  rw [renderCells]
  exact hcells

/-- Every cell a successful cell loop emits is built from two entries of the
brightness array. -/
theorem renderCells_mem (brightness : List ℚ) (w h : Nat) (cells : List Cell)
    (hr : renderCells brightness w h = some cells) :
    ∀ cell ∈ cells, ∃ t bt, t ∈ brightness ∧ bt ∈ brightness ∧
      cell = Cell.mk (brightnessColor t) (brightnessColor bt) halfBlock := by
  rw [renderCells] at hr
  refine foldlM_some_ind _
    (fun cs => ∀ cell ∈ cs, ∃ t bt, t ∈ brightness ∧ bt ∈ brightness ∧
      cell = Cell.mk (brightnessColor t) (brightnessColor bt) halfBlock)
    (List.range h) [] cells hr (by simp) ?_
  intro cs y cs' _ hP hstep
  refine foldlM_some_ind _
    (fun cs => ∀ cell ∈ cs, ∃ t bt, t ∈ brightness ∧ bt ∈ brightness ∧
      cell = Cell.mk (brightnessColor t) (brightnessColor bt) halfBlock)
    (List.range w) cs cs' hstep hP ?_
  intro ds x ds' _ hPd hd
  obtain ⟨top, htop, hd2⟩ := Option.bind_eq_some.mp hd
  obtain ⟨bottom, hbottom, hd3⟩ := Option.bind_eq_some.mp hd2
  have hds' : ds' = ds ++
      [Cell.mk (brightnessColor top) (brightnessColor bottom) halfBlock] :=
    ((Option.some.injEq _ _).mp hd3).symm
  subst hds'
  intro cell hcell
  rcases List.mem_append.mp hcell with hold | hnew
  · exact hPd cell hold
  · have hc : cell = Cell.mk (brightnessColor top) (brightnessColor bottom) halfBlock := by
      simpa using hnew
    obtain ⟨h1, e1⟩ := List.getElem?_eq_some_iff.mp htop
    obtain ⟨h2, e2⟩ := List.getElem?_eq_some_iff.mp hbottom
    exact ⟨top, bottom, e1 ▸ List.getElem_mem h1, e2 ▸ List.getElem_mem h2, hc⟩

/-! ### The composed render -/

/-- A successful render decomposes into its pipeline stages. -/
theorem render_decompose (m : Mandelbrot) (w h : Nat) (cells : List Cell)
    (hr : Mandelbrot.render m w h = some cells) :
    ∃ pixels histogram total brightness,
      pixelsOf m w h = some pixels ∧
      buildHistogram m.max_iterations pixels = some histogram ∧
      sumTotal histogram = some total ∧
      pixels.mapM (sampleBrightness m.max_iterations total histogram) = some brightness ∧
      renderCells brightness w h = some cells := by
  rw [Mandelbrot.render] at hr
  obtain ⟨pixels, h1, hr⟩ := Option.bind_eq_some.mp hr
  obtain ⟨histogram, h2, hr⟩ := Option.bind_eq_some.mp hr
  obtain ⟨total, h3, hr⟩ := Option.bind_eq_some.mp hr
  obtain ⟨brightness, h4, hr⟩ := Option.bind_eq_some.mp hr
  exact ⟨pixels, histogram, total, brightness, h1, h2, h3, h4, hr⟩

/-- Successful pipeline stages compose to a successful render. -/
theorem render_compose (m : Mandelbrot) (w h : Nat) (pixels histogram : List Nat)
    (total : Nat) (brightness : List ℚ) (cells : List Cell)
    (h1 : pixelsOf m w h = some pixels)
    (h2 : buildHistogram m.max_iterations pixels = some histogram)
    (h3 : sumTotal histogram = some total)
    (h4 : pixels.mapM (sampleBrightness m.max_iterations total histogram) = some brightness)
    (h5 : renderCells brightness w h = some cells) :
    Mandelbrot.render m w h = some cells := by
  rw [Mandelbrot.render, h1, Option.some_bind, h2, Option.some_bind, h3, Option.some_bind,
    h4, Option.some_bind, h5]

/-- The brightness pass always succeeds when every count is bounded by
`max_iterations`. -/
theorem brightness_mapM_some (maxIter : Nat) (hist : List Nat) (pixels : List Nat)
    (hlen : hist.length = maxIter + 1) (hle : ∀ c ∈ pixels, c ≤ maxIter) :
    ∃ bl, pixels.mapM (sampleBrightness maxIter hist.sum hist) = some bl := by
  apply mapM_option_some
  intro c hc
  by_cases hceq : c = maxIter
  · exact ⟨0, by rw [hceq, sampleBrightness_max]⟩
  · exact ⟨_, sampleBrightness_eq maxIter hist.sum hist c hceq
      (by have := hle c hc; omega)⟩

/-- The whole render succeeds and emits `w * h` cells when the `u16` size
arithmetic cannot wrap. -/
theorem render_some (m : Mandelbrot) (w h : Nat) (hs : 2 * (w * h) ≤ 65535) :
    ∃ cells, Mandelbrot.render m w h = some cells ∧ cells.length = w * h := by
  have hp : pixelsOf m w h = some (pixelsSpec m w h (xStepOf m w) (yStepOf m h)) :=
    fillPixels_eq m w h _ _ hs
  obtain ⟨hist, hh, hhl, hbuck⟩ :=
    buildHistogram_spec m.max_iterations (pixelsSpec m w h (xStepOf m w) (yStepOf m h))
  obtain ⟨bl, hbl⟩ := brightness_mapM_some m.max_iterations hist
    (pixelsSpec m w h (xStepOf m w) (yStepOf m h)) hhl
    (fun c hc => mem_pixelsSpec_le m w h _ _ c hc)
  have hbll : bl.length = 2 * h * w := by
    have hf := mapM_option_forall _ _ bl hbl
    have hfl := hf.length_eq
    rw [pixelsSpec_length] at hfl
    omega
  obtain ⟨cells, hc, hcl⟩ := renderCells_spec bl w h hs hbll
  exact ⟨cells, render_compose m w h _ hist hist.sum bl cells hp hh
    (sumTotal_eq hist) hbl hc, hcl⟩

/-- Membership transfer along a `Forall₂`, from the right list. -/
theorem forall₂_mem_right {α β : Type} (R : α → β → Prop) :
    ∀ (l : List α) (l' : List β), List.Forall₂ R l l' →
      ∀ b ∈ l', ∃ a ∈ l, R a b := by
  intro l l' h
  induction h with
  | nil => intro b hb; simp at hb
  | cons hR _ ih =>
    intro b hb
    rcases List.mem_cons.mp hb with hb | hb
    · exact ⟨_, by simp, hb ▸ hR⟩
    · obtain ⟨a, ha, haR⟩ := ih b hb
      exact ⟨a, by simp [ha], haR⟩

/-! ### Claim theorems -/

/-- Claim C1 (code bug): `decrease_max_iterations` is claimed to saturate at
the floor `100`, but at `max_iterations = 100` the source computes
`(100 : u16).checked_sub(100).unwrap_or(100) = 0`: the depth drops to `0`,
not `100`. -/
theorem decrease_max_iterations_at_floor_is_zero :
    (Mandelbrot.decrease_max_iterations (Mandelbrot.new 100 (-2) 1 (-1) 1)).max_iterations = 0 ∧
    (0 : Nat) ≠ max (100 - 100) 100 := by
  constructor
  · rfl
  · decide

set_option maxRecDepth 8000 in
/-- Claim C9 (code bug): the invariant `max_iterations ≥ 100` is not
preserved: starting from the initial state (depth `10000`), 100 presses of
`decrease_max_iterations` reach `max_iterations = 0 < 100` (the 99th press
reaches the floor `100`, the 100th drops to `0`). -/
theorem decrease_iterated_breaks_invariant :
    (Mandelbrot.decrease_max_iterations^[100] initialMandelbrot).max_iterations = 0 ∧
    0 < 100 := by
  constructor
  · decide
  · decide

/-- Claim C2 counterexample: on the initial viewport (`x` range `3`),
`zoom_in` then `zoom_out` leaves an `x` range of `2.97 = 3 * 0.99`, which
differs from the original range by `0.03` — a 1% error in exact arithmetic,
not a floating-point rounding effect. -/
theorem zoom_roundtrip_not_original :
    initialMandelbrot.zoom_in.zoom_out.x_max - initialMandelbrot.zoom_in.zoom_out.x_min =
      297 / 100 ∧
    initialMandelbrot.x_max - initialMandelbrot.x_min = 3 ∧
    initialMandelbrot.zoom_in.zoom_out.x_max - initialMandelbrot.zoom_in.zoom_out.x_min ≠
      initialMandelbrot.x_max - initialMandelbrot.x_min := by
  with_unfolding_all decide

/-- Claim C2 (amended): `zoom_in` then `zoom_out` multiplies each axis range
by exactly `0.9 * 1.1 = 0.99` — it does not return the ranges to their
original size — while the midpoint of each axis is preserved exactly by
`zoom_in` and by `zoom_out` (stated via the sum of the two bounds). -/
theorem zoom_in_zoom_out_scales_ranges (m : Mandelbrot) :
    (m.zoom_in.zoom_out.x_max - m.zoom_in.zoom_out.x_min =
      (99 / 100) * (m.x_max - m.x_min)) ∧
    (m.zoom_in.zoom_out.y_max - m.zoom_in.zoom_out.y_min =
      (99 / 100) * (m.y_max - m.y_min)) ∧
    (m.zoom_in.x_min + m.zoom_in.x_max = m.x_min + m.x_max) ∧
    (m.zoom_in.y_min + m.zoom_in.y_max = m.y_min + m.y_max) ∧
    (m.zoom_out.x_min + m.zoom_out.x_max = m.x_min + m.x_max) ∧
    (m.zoom_out.y_min + m.zoom_out.y_max = m.y_min + m.y_max) := by
  refine ⟨?_, ?_, ?_, ?_, ?_, ?_⟩ <;>
    simp only [Mandelbrot.zoom_in, Mandelbrot.zoom_out] <;> ring

/-- Claim C3 counterexample: `max_iterations` is a `u16`, so at `65500` one
more `increase_max_iterations` wraps to `64` (release mode; a debug build
panics) instead of producing `65600`: the increase is not un-capped. -/
theorem increase_wraps_at_65500 :
    (Mandelbrot.new 65500 (-2) 1 (-1) 1).increase_max_iterations.max_iterations = 64 ∧
    (64 : Nat) ≠ 65500 + 100 := by
  constructor
  · rfl
  · decide

/-- Claim C3 (amended): `increase_max_iterations` adds `100` modulo `2^16`;
whenever `max_iterations ≤ 65435` it increases the depth by exactly `100`
and always succeeds, with no other cap. -/
theorem increase_max_iterations_adds_100 (m : Mandelbrot)
    (hm : m.max_iterations ≤ 65435) :
    m.increase_max_iterations.max_iterations = m.max_iterations + 100 := by
  simp only [Mandelbrot.increase_max_iterations]
  exact Nat.mod_eq_of_lt (by omega)

/-- Witness for the amended C3 at the initial state (`10000 → 10100`). -/
theorem increase_max_iterations_adds_100_witness :
    initialMandelbrot.max_iterations ≤ 65435 ∧
    initialMandelbrot.increase_max_iterations.max_iterations =
      initialMandelbrot.max_iterations + 100 :=
  ⟨by decide, increase_max_iterations_adds_100 initialMandelbrot (by decide)⟩

/-- Claim C4 counterexample: on a 256×128 cell grid, `width * height * 2`
overflows `u16` (`65536 ≡ 0`), the pixels buffer is allocated with length
`0`, and the very first write `pixels[0]` is out of bounds: the render
panics instead of producing `256 * 128` cells. -/
theorem render_256x128_panics :
    Mandelbrot.render initialMandelbrot 256 128 = none := by
  with_unfolding_all decide

/-- Claim C4 (amended): whenever `2 * (width * height) ≤ 65535` — so the
`u16` size and index arithmetic of lines 143-197 cannot wrap — the render
cannot fail: every array index is in bounds, it terminates, and it emits
exactly `width * height` cells; degenerate grids (zero width or height)
produce an empty frame rather than a crash. -/
theorem render_produces_w_h_cells (m : Mandelbrot) (w h : Nat)
    (hs : 2 * (w * h) ≤ 65535) :
    ∃ cells, Mandelbrot.render m w h = some cells ∧ cells.length = w * h ∧
      ((w = 0 ∨ h = 0) → cells = []) := by
  obtain ⟨cells, hr, hl⟩ := render_some m w h hs
  refine ⟨cells, hr, hl, ?_⟩
  intro h0
  apply List.eq_nil_of_length_eq_zero
  rw [hl]
  rcases h0 with h0 | h0 <;> simp [h0]

/-- Witness for the amended C4 on a 1×1 grid with the initial viewport. -/
theorem render_produces_w_h_cells_witness :
    2 * (1 * 1) ≤ 65535 ∧
    ∃ cells, Mandelbrot.render initialMandelbrot 1 1 = some cells ∧
      cells.length = 1 * 1 ∧ (((1 : Nat) = 0 ∨ (1 : Nat) = 0) → cells = []) :=
  ⟨by decide, render_produces_w_h_cells initialMandelbrot 1 1 (by decide)⟩

/-- Claim C5: when no sample escapes (`total = histogram.sum = 0`, i.e.
every stored count equals `max_iterations`), every brightness is `0` (the
accumulation loop — and with it the division by `total` — is never
reached, because every sample takes the `continue` branch) and every
rendered cell is the zero-brightness color `Rgb(0, 0, 0)`. -/
theorem render_black_when_total_zero (m : Mandelbrot) (w h : Nat)
    (hs : 2 * (w * h) ≤ 65535) (pixels histogram : List Nat)
    (hp : pixelsOf m w h = some pixels)
    (hhist : buildHistogram m.max_iterations pixels = some histogram)
    (htot : histogram.sum = 0) :
    pixels.mapM (sampleBrightness m.max_iterations histogram.sum histogram) =
      some (List.replicate pixels.length 0) ∧
    ∃ cells, Mandelbrot.render m w h = some cells ∧
      ∀ cell ∈ cells, cell.fg = Rgb.mk 0 0 0 ∧ cell.bg = Rgb.mk 0 0 0 := by
  have hp' := fillPixels_eq m w h (xStepOf m w) (yStepOf m h) hs
  rw [pixelsOf] at hp
  rw [hp] at hp'
  have hpe : pixels = pixelsSpec m w h (xStepOf m w) (yStepOf m h) :=
    Option.some.inj hp'
  obtain ⟨hist', hh', hhl, hbuck⟩ := buildHistogram_spec m.max_iterations pixels
  rw [hhist] at hh'
  have hhe : histogram = hist' := Option.some.inj hh'
  rw [← hhe] at hhl hbuck
  have hcount : ∀ c ∈ pixels, c = m.max_iterations := by
    intro c hc
    have hle : c ≤ m.max_iterations := by
      rw [hpe] at hc
      exact mem_pixelsSpec_le m w h _ _ c hc
    by_contra hne
    obtain ⟨v, hv, h1v⟩ := hbuck c hc (lt_of_le_of_ne hle hne)
    have := take_sum_add_le histogram c v hv
    omega
  have hbl : pixels.mapM (sampleBrightness m.max_iterations histogram.sum histogram) =
      some (List.replicate pixels.length 0) := by
    apply mapM_option_const
    intro c hc
    rw [hcount c hc]
    exact sampleBrightness_max _ _ _
  refine ⟨hbl, ?_⟩
  have hbll : (List.replicate pixels.length (0 : ℚ)).length = 2 * h * w := by
    rw [List.length_replicate, hpe, pixelsSpec_length]
  obtain ⟨cells, hc, hcl⟩ := renderCells_spec _ w h hs hbll
  refine ⟨cells, render_compose m w h pixels histogram histogram.sum _ cells
    (by rw [pixelsOf]; exact hp) hhist (sumTotal_eq histogram) hbl hc, ?_⟩
  intro cell hcell
  obtain ⟨t, bt, ht, hbt, hcelleq⟩ := renderCells_mem _ w h cells hc cell hcell
  have ht0 : t = 0 := List.eq_of_mem_replicate ht
  have hbt0 : bt = 0 := List.eq_of_mem_replicate hbt
  rw [hcelleq, ht0, hbt0, brightnessColor_zero]
  exact ⟨rfl, rfl⟩

/-- Witness for C5: a fully interior viewport (`x, y ∈ [0, 0.1]`, depth 2)
on a 1×1 grid: both samples reach `max_iterations`, the histogram is all
zeros, and the theorem yields the all-black frame. -/
theorem render_black_when_total_zero_witness :
    2 * (1 * 1) ≤ 65535 ∧
    pixelsOf (Mandelbrot.new 2 0 (1/10) 0 (1/10)) 1 1 = some [2, 2] ∧
    buildHistogram (Mandelbrot.new 2 0 (1/10) 0 (1/10)).max_iterations [2, 2] =
      some [0, 0, 0] ∧
    ([0, 0, 0] : List Nat).sum = 0 ∧
    ([2, 2] : List Nat).mapM
      (sampleBrightness (Mandelbrot.new 2 0 (1/10) 0 (1/10)).max_iterations
        ([0, 0, 0] : List Nat).sum [0, 0, 0]) =
      some (List.replicate ([2, 2] : List Nat).length 0) ∧
    ∃ cells, Mandelbrot.render (Mandelbrot.new 2 0 (1/10) 0 (1/10)) 1 1 = some cells ∧
      ∀ cell ∈ cells, cell.fg = Rgb.mk 0 0 0 ∧ cell.bg = Rgb.mk 0 0 0 := by
  refine ⟨by decide, ?_, ?_, by decide, ?_, ?_⟩
  · with_unfolding_all decide
  · with_unfolding_all decide
  · exact (render_black_when_total_zero (Mandelbrot.new 2 0 (1/10) 0 (1/10)) 1 1
      (by decide) [2, 2] [0, 0, 0] (by with_unfolding_all decide)
      (by with_unfolding_all decide) (by decide)).1
  · exact (render_black_when_total_zero (Mandelbrot.new 2 0 (1/10) 0 (1/10)) 1 1
      (by decide) [2, 2] [0, 0, 0] (by with_unfolding_all decide)
      (by with_unfolding_all decide) (by decide)).2

/-- Claim C6: every stored pixel count is the escape iteration count of its
sample point: iterating `z ← z² + c` from `z = 0`, it is the least `n` at
which `|z|² > 4` or `n = max_iterations` first holds, and it never exceeds
`max_iterations`. -/
theorem pixels_are_least_escape_counts (m : Mandelbrot) (w h : Nat)
    (hs : 2 * (w * h) ≤ 65535) (pixels : List Nat)
    (hp : pixelsOf m w h = some pixels) (x y : Nat) (hx : x < w) (hy : y < 2 * h) :
    ∃ n, pixels[y * w + x]? = some n ∧ n ≤ m.max_iterations ∧
      (4 < normSqr (orbit (samplePoint m (xStepOf m w) (yStepOf m h) x y) n) ∨
        n = m.max_iterations) ∧
      ∀ k < n, ¬(4 < normSqr (orbit (samplePoint m (xStepOf m w) (yStepOf m h) x y) k) ∨
        k = m.max_iterations) := by
  have hp' := fillPixels_eq m w h (xStepOf m w) (yStepOf m h) hs
  rw [pixelsOf] at hp
  rw [hp] at hp'
  have hpe : pixels = pixelsSpec m w h (xStepOf m w) (yStepOf m h) := Option.some.inj hp'
  subst hpe
  refine ⟨escapeCount m.max_iterations (samplePoint m (xStepOf m w) (yStepOf m h) x y),
    pixelsSpec_getElem m w h _ _ x y hx hy, escapeCount_le _ _,
    (escapeCount_char _ _).1, fun k hk => (escapeCount_char _ _).2 k hk⟩

/-- Witness for C6: initial rectangle with depth 3 on a 2×1 grid; the
sample at `(0, 0)` is `c = (-2, -1)`, which escapes at `n = 1`. -/
theorem pixels_are_least_escape_counts_witness :
    2 * (2 * 1) ≤ 65535 ∧
    pixelsOf (Mandelbrot.new 3 (-2) 1 (-1) 1) 2 1 = some [1, 3, 3, 3] ∧
    (0 : Nat) < 2 ∧ (0 : Nat) < 2 * 1 ∧
    ∃ n, ([1, 3, 3, 3] : List Nat)[0 * 2 + 0]? = some n ∧
      n ≤ (Mandelbrot.new 3 (-2) 1 (-1) 1).max_iterations ∧
      (4 < normSqr (orbit (samplePoint (Mandelbrot.new 3 (-2) 1 (-1) 1)
          (xStepOf (Mandelbrot.new 3 (-2) 1 (-1) 1) 2)
          (yStepOf (Mandelbrot.new 3 (-2) 1 (-1) 1) 1) 0 0) n) ∨
        n = (Mandelbrot.new 3 (-2) 1 (-1) 1).max_iterations) ∧
      ∀ k < n, ¬(4 < normSqr (orbit (samplePoint (Mandelbrot.new 3 (-2) 1 (-1) 1)
          (xStepOf (Mandelbrot.new 3 (-2) 1 (-1) 1) 2)
          (yStepOf (Mandelbrot.new 3 (-2) 1 (-1) 1) 1) 0 0) k) ∨
        k = (Mandelbrot.new 3 (-2) 1 (-1) 1).max_iterations) :=
  ⟨by decide, by with_unfolding_all decide, by decide, by decide,
    pixels_are_least_escape_counts (Mandelbrot.new 3 (-2) 1 (-1) 1) 2 1 (by decide)
      [1, 3, 3, 3] (by with_unfolding_all decide) 0 0 (by decide) (by decide)⟩

/-- Claim C7: every computed brightness lies in `[0, 1)`, and a sample whose
count equals `max_iterations` has brightness exactly `0`. -/
theorem brightness_in_unit_interval (m : Mandelbrot) (w h : Nat)
    (hs : 2 * (w * h) ≤ 65535) (pixels histogram : List Nat) (total : Nat)
    (brightness : List ℚ)
    (hp : pixelsOf m w h = some pixels)
    (hhist : buildHistogram m.max_iterations pixels = some histogram)
    (htot : sumTotal histogram = some total)
    (hbl : pixels.mapM (sampleBrightness m.max_iterations total histogram) = some brightness)
    (i count : Nat) (b : ℚ) (hc : pixels[i]? = some count) (hb : brightness[i]? = some b) :
    0 ≤ b ∧ b < 1 ∧ (count = m.max_iterations → b = 0) := by
  have hts := sumTotal_eq histogram
  rw [htot] at hts
  have hte : total = histogram.sum := Option.some.inj hts
  subst hte
  have hp' := fillPixels_eq m w h (xStepOf m w) (yStepOf m h) hs
  rw [pixelsOf] at hp
  rw [hp] at hp'
  have hpe : pixels = pixelsSpec m w h (xStepOf m w) (yStepOf m h) := Option.some.inj hp'
  obtain ⟨hist', hh', hhl, hbuck⟩ := buildHistogram_spec m.max_iterations pixels
  rw [hhist] at hh'
  have hhe : histogram = hist' := Option.some.inj hh'
  rw [← hhe] at hhl hbuck
  obtain ⟨hilt, hie⟩ := List.getElem?_eq_some_iff.mp hc
  have hmem : count ∈ pixels := hie ▸ List.getElem_mem hilt
  have hf := mapM_option_forall _ pixels brightness hbl
  have hrel := forall₂_getElem? _ pixels brightness hf i count b hc hb
  exact sampleBrightness_bounds m.max_iterations histogram count hhl
    (by rw [hpe] at hmem; exact mem_pixelsSpec_le m w h _ _ count hmem)
    (fun hlt => hbuck count hmem hlt) b hrel

/-- Witness for C7 at the 2×1 depth-3 frame: sample 0 has count 1 and
brightness 0, which lies in `[0, 1)`. -/
theorem brightness_in_unit_interval_witness :
    2 * (2 * 1) ≤ 65535 ∧
    pixelsOf (Mandelbrot.new 3 (-2) 1 (-1) 1) 2 1 = some [1, 3, 3, 3] ∧
    buildHistogram (Mandelbrot.new 3 (-2) 1 (-1) 1).max_iterations [1, 3, 3, 3] =
      some [0, 1, 0, 0] ∧
    sumTotal [0, 1, 0, 0] = some 1 ∧
    ([1, 3, 3, 3] : List Nat).mapM
      (sampleBrightness (Mandelbrot.new 3 (-2) 1 (-1) 1).max_iterations 1 [0, 1, 0, 0]) =
      some [0, 0, 0, 0] ∧
    (0 ≤ (0 : ℚ) ∧ (0 : ℚ) < 1 ∧
      ((1 : Nat) = (Mandelbrot.new 3 (-2) 1 (-1) 1).max_iterations → (0 : ℚ) = 0)) :=
  ⟨by decide, by with_unfolding_all decide, by with_unfolding_all decide,
    by with_unfolding_all decide, by with_unfolding_all decide,
    brightness_in_unit_interval (Mandelbrot.new 3 (-2) 1 (-1) 1) 2 1 (by decide)
      [1, 3, 3, 3] [0, 1, 0, 0] 1 [0, 0, 0, 0]
      (by with_unfolding_all decide) (by with_unfolding_all decide)
      (by with_unfolding_all decide) (by with_unfolding_all decide)
      0 1 0 (by decide) (by with_unfolding_all decide)⟩

/-- Claim C8: within one frame (fixed histogram and total), the brightness
assigned to escaped samples is monotonically non-decreasing in the escape
iteration count. -/
theorem brightness_monotone_in_count (m : Mandelbrot) (w h : Nat)
    (hs : 2 * (w * h) ≤ 65535) (pixels histogram : List Nat) (total : Nat)
    (hp : pixelsOf m w h = some pixels)
    (hhist : buildHistogram m.max_iterations pixels = some histogram)
    (htot : sumTotal histogram = some total)
    (n1 n2 : Nat) (h1 : n1 ∈ pixels) (h2 : n2 ∈ pixels) (h12 : n1 ≤ n2)
    (hlt : n2 < m.max_iterations) (b1 b2 : ℚ)
    (hb1 : sampleBrightness m.max_iterations total histogram n1 = some b1)
    (hb2 : sampleBrightness m.max_iterations total histogram n2 = some b2) :
    b1 ≤ b2 := by
  obtain ⟨hist', hh', hhl, _⟩ := buildHistogram_spec m.max_iterations pixels
  rw [hhist] at hh'
  rw [← Option.some.inj hh'] at hhl
  exact sampleBrightness_mono m.max_iterations total histogram n1 n2 h12 hlt hhl b1 b2 hb1 hb2

/-- Witness for C8 at the 2×1 depth-3 frame, with both escaped samples equal
to the one at count 1 (brightness 0 on both sides). -/
theorem brightness_monotone_in_count_witness :
    2 * (2 * 1) ≤ 65535 ∧
    pixelsOf (Mandelbrot.new 3 (-2) 1 (-1) 1) 2 1 = some [1, 3, 3, 3] ∧
    buildHistogram (Mandelbrot.new 3 (-2) 1 (-1) 1).max_iterations [1, 3, 3, 3] =
      some [0, 1, 0, 0] ∧
    sumTotal [0, 1, 0, 0] = some 1 ∧
    (1 : Nat) ∈ ([1, 3, 3, 3] : List Nat) ∧ (1 : Nat) ≤ 1 ∧
    (1 : Nat) < (Mandelbrot.new 3 (-2) 1 (-1) 1).max_iterations ∧
    sampleBrightness (Mandelbrot.new 3 (-2) 1 (-1) 1).max_iterations 1 [0, 1, 0, 0] 1 =
      some 0 ∧
    (0 : ℚ) ≤ 0 :=
  ⟨by decide, by with_unfolding_all decide, by with_unfolding_all decide,
    by with_unfolding_all decide, by decide, by decide, by decide,
    by with_unfolding_all decide,
    brightness_monotone_in_count (Mandelbrot.new 3 (-2) 1 (-1) 1) 2 1 (by decide)
      [1, 3, 3, 3] [0, 1, 0, 0] 1
      (by with_unfolding_all decide) (by with_unfolding_all decide)
      (by with_unfolding_all decide) 1 1 (by decide) (by decide) (by decide) (by decide)
      0 0 (by with_unfolding_all decide) (by with_unfolding_all decide)⟩

/-- Claim C10: in every successfully rendered frame, the blue channel of
every cell's foreground and background color is at most `254`: brightness is
strictly below `1`, so `floor (b * 255)` never reaches `255`. -/
theorem blue_channel_at_most_254 (m : Mandelbrot) (w h : Nat)
    (hs : 2 * (w * h) ≤ 65535) (cells : List Cell)
    (hr : Mandelbrot.render m w h = some cells) :
    ∀ cell ∈ cells, cell.fg.b ≤ 254 ∧ cell.bg.b ≤ 254 := by
  obtain ⟨pixels, histogram, total, brightness, hp, hh, ht, hbl, hc⟩ :=
    render_decompose m w h cells hr
  have hts := sumTotal_eq histogram
  rw [ht] at hts
  have hte : total = histogram.sum := Option.some.inj hts
  subst hte
  have hp' := fillPixels_eq m w h (xStepOf m w) (yStepOf m h) hs
  rw [pixelsOf] at hp
  rw [hp] at hp'
  have hpe : pixels = pixelsSpec m w h (xStepOf m w) (yStepOf m h) := Option.some.inj hp'
  obtain ⟨hist', hh', hhl, hbuck⟩ := buildHistogram_spec m.max_iterations pixels
  rw [hh] at hh'
  have hhe : histogram = hist' := Option.some.inj hh'
  rw [← hhe] at hhl hbuck
  have hblt : ∀ b ∈ brightness, b < 1 := by
    intro b hb
    obtain ⟨count, hcm, hrel⟩ := forall₂_mem_right _ pixels brightness
      (mapM_option_forall _ pixels brightness hbl) b hb
    exact (sampleBrightness_bounds m.max_iterations histogram count hhl
      (by rw [hpe] at hcm; exact mem_pixelsSpec_le m w h _ _ count hcm)
      (fun hlt => hbuck count hcm hlt) b hrel).2.1
  intro cell hcell
  obtain ⟨t, bt, htm, hbtm, hcelleq⟩ := renderCells_mem brightness w h cells hc cell hcell
  rw [hcelleq]
  exact ⟨f64ToU8_le_254 t (hblt t htm), f64ToU8_le_254 bt (hblt bt hbtm)⟩

/-- Witness for C10 at the 2×1 depth-3 frame, whose two cells are black
(the render is assembled stage by stage via `render_compose`). -/
theorem blue_channel_at_most_254_witness :
    2 * (2 * 1) ≤ 65535 ∧
    Mandelbrot.render (Mandelbrot.new 3 (-2) 1 (-1) 1) 2 1 =
      some [Cell.mk (Rgb.mk 0 0 0) (Rgb.mk 0 0 0) halfBlock,
        Cell.mk (Rgb.mk 0 0 0) (Rgb.mk 0 0 0) halfBlock] ∧
    ∀ cell ∈ [Cell.mk (Rgb.mk 0 0 0) (Rgb.mk 0 0 0) halfBlock,
        Cell.mk (Rgb.mk 0 0 0) (Rgb.mk 0 0 0) halfBlock],
      cell.fg.b ≤ 254 ∧ cell.bg.b ≤ 254 :=
  have hr : Mandelbrot.render (Mandelbrot.new 3 (-2) 1 (-1) 1) 2 1 =
      some [Cell.mk (Rgb.mk 0 0 0) (Rgb.mk 0 0 0) halfBlock,
        Cell.mk (Rgb.mk 0 0 0) (Rgb.mk 0 0 0) halfBlock] :=
    render_compose (Mandelbrot.new 3 (-2) 1 (-1) 1) 2 1 [1, 3, 3, 3] [0, 1, 0, 0] 1
      [0, 0, 0, 0]
      [Cell.mk (Rgb.mk 0 0 0) (Rgb.mk 0 0 0) halfBlock,
        Cell.mk (Rgb.mk 0 0 0) (Rgb.mk 0 0 0) halfBlock]
      (by with_unfolding_all decide) (by with_unfolding_all decide)
      (by with_unfolding_all decide) (by with_unfolding_all decide)
      (by rw [renderCells]
          norm_num [List.range_succ, List.range_zero, List.foldlM_cons, List.foldlM_nil,
            getChecked, u16add, u16mul, brightnessColor, f64ToU8, Int.floor_zero])
  ⟨by decide, hr,
    blue_channel_at_most_254 (Mandelbrot.new 3 (-2) 1 (-1) 1) 2 1 (by decide)
      [Cell.mk (Rgb.mk 0 0 0) (Rgb.mk 0 0 0) halfBlock,
        Cell.mk (Rgb.mk 0 0 0) (Rgb.mk 0 0 0) halfBlock] hr⟩
